import Mathlib

/-!
Verification of the decimal-number grammar construction of
`nemo_text_processing/inverse_text_normalization/es/taggers/decimal.py`.

A pynini finite-state transducer is embedded extensionally as the relation
between input character strings and output character strings it accepts.
The grammar-construction operators (union, concatenation, closure, cross,
insertion, deletion, composition) become operations on such relations, and
`get_quantity` / `DecimalFst.__init__` are translated line by line.
Helpers the source imports from elsewhere in the repository (graph_utils,
the lexicon .tsv data files, the external cardinal sub-grammar) are
modelled from the specification and marked as such.
-/

namespace NemoDecimal

/-- Character strings, as lists of characters. -/
abbrev Str := List Char

/-- Shorthand for `String.toList`. -/
def toL (s : String) : Str := s.toList

/-- A finite-state transducer, embedded extensionally as the relation between
the input strings and output strings it accepts. -/
def FST : Type := Str → Str → Prop

/-- `pynini.union` (the `|` operator). -/
def u (R S : FST) : FST := fun i o => R i o ∨ S i o

/-- pynini concatenation (the `+` operator). -/
def cat (R S : FST) : FST :=
  fun i o => ∃ i1 i2 o1 o2, R i1 o1 ∧ S i2 o2 ∧ i = i1 ++ i2 ∧ o = o1 ++ o2

/-- `pynini.closure` with no bounds (Kleene star). -/
inductive star (R : FST) : Str → Str → Prop
  | nil : star R [] []
  | cons {i1 o1 i2 o2} : R i1 o1 → star R i2 o2 → star R (i1 ++ i2) (o1 ++ o2)

/-- `pynini.closure(R, 0, 1)`: at most one occurrence. -/
def opt (R : FST) : FST := fun i o => (i = [] ∧ o = []) ∨ R i o

/-- `pynini.cross`: maps one exact input literal to one exact output literal. -/
def cross (s t : String) : FST := fun i o => i = s.toList ∧ o = t.toList

/-- A string literal used as an FST: the identity acceptor of that string. -/
def lit (s : String) : FST := fun i o => i = s.toList ∧ o = s.toList

/-- `pynutil.insert`: consumes nothing, emits the literal. -/
def ins (t : String) : FST := cross "" t

/-- pynini composition (the `@` operator). -/
def comp (R S : FST) : FST := fun i o => ∃ m, R i m ∧ S m o

/-- `pynutil.delete(pynini.closure("0"))`: deletes a (possibly empty) run of
`'0'` characters. -/
def delStarZero : FST := fun i o => (∀ c ∈ i, c = '0') ∧ o = []

/-- Whitespace characters. -/
def isWS (c : Char) : Bool := c == ' ' || c == '\t' || c == '\n' || c == '\r'

/-- Modelled from the spec: `NEMO_DIGIT` of the shared graph-utils module
(imported by the source, not under src/): the identity acceptor of one decimal
digit character ("a non-zero digit followed by any further digits" presupposes
digit characters `0`–`9`). -/
def NEMO_DIGIT : FST := fun i o => ∃ c : Char, i = [c] ∧ o = [c] ∧ c.isDigit

/-- `pynini.difference(NEMO_DIGIT, "0")`: one digit character other than `0`. -/
def diffZero : FST := fun i o => NEMO_DIGIT i o ∧ i ≠ ['0']

/-- Modelled from the spec: `delete_space` of the shared graph-utils module
(not under src/): deletes an arbitrary, possibly empty, run of whitespace
("consecutive digits may be separated by an arbitrary run of deletable
whitespace"). -/
def delete_space : FST := fun i o => (∀ c ∈ i, isWS c = true) ∧ o = []

/-- Modelled from the spec: `delete_extra_space` of the shared graph-utils
module (not under src/): a mandatory whitespace separator ("a deleted-separator
requirement"), collapsed to the single space that separates the emitted tag
fragments (§6: "a tagged string of space-separated `key: "value"` fragments"). -/
def delete_extra_space : FST :=
  fun i o => i ≠ [] ∧ (∀ c ∈ i, isWS c = true) ∧ o = [' ']

/-- Modelled from the spec: the digit lexicon `data/numbers/digit.tsv` (a data
file of the repository, not under src/): spoken Spanish digit words mapped to
the digit characters `1`–`9`. -/
def digitPairs : List (String × String) :=
  [("uno", "1"), ("dos", "2"), ("tres", "3"), ("cuatro", "4"), ("cinco", "5"),
   ("seis", "6"), ("siete", "7"), ("ocho", "8"), ("nueve", "9")]

/-- Modelled from the spec: the zero lexicon `data/numbers/zero.tsv` (a data
file of the repository, not under src/): the spoken word for zero mapped to
the digit character `0`. -/
def zeroPairs : List (String × String) := [("cero", "0")]

/-- Modelled from the spec: the lexicon `data/numbers/es/zero.tsv` unioned into
the cardinal acceptor (a data file of the repository, not under src/). -/
def esZeroPairs : List (String × String) := [("cero", "0")]

/-- `pynini.string_file`: the union of one cross per line of the table. -/
def table (ps : List (String × String)) : FST :=
  fun i o => ∃ p ∈ ps, i = p.1.toList ∧ o = p.2.toList

/-- Modelled from the spec: the external cardinal sub-grammar (out of scope,
"specified only via the interfaces": `full(input) -> digit_string` and
`restrictedAtLeastOneNonzeroUpToHundreds(input) -> digit_string`), restricted
to the single spoken digit words the spec's scenarios exercise. Used to
instantiate the grammar's cardinal parameters on concrete scenario inputs. -/
def modelCardinal : FST := table digitPairs

/-! ## The source translation: `get_quantity` -/

/-- `numbers` of `get_quantity`: the restricted cardinal composed with the
magnitude filter `delete(closure("0")) + (NEMO_DIGIT - "0") + closure(NEMO_DIGIT)`. -/
def numbers (cardinal_up_to_hundred : FST) : FST :=
  comp cardinal_up_to_hundred (cat delStarZero (cat diffZero (star NEMO_DIGIT)))

/-- The ten large-scale suffix words of `get_quantity`, in source order. -/
def suffixWords : List String :=
  ["millón", "millones", "millardo", "millardos", "billón", "billones",
   "trillón", "trillones", "cuatrillón", "cuatrillones"]

/-- `suffix` of `get_quantity`: `pynini.union` of the ten large-scale words. -/
def suffix : FST :=
  u (lit "millón") (u (lit "millones") (u (lit "millardo") (u (lit "millardos")
    (u (lit "billón") (u (lit "billones") (u (lit "trillón") (u (lit "trillones")
      (u (lit "cuatrillón") (lit "cuatrillones")))))))))

/-- The bare-cardinal path (a) of `get_quantity`:
`insert("integer_part: \"") + numbers + insert("\"") + delete_extra_space +
insert("quantity: \"") + suffix + insert("\"")`. -/
def quantityPathA (cardinal_up_to_hundred : FST) : FST :=
  cat (ins "integer_part: \"") (cat (numbers cardinal_up_to_hundred)
    (cat (ins "\"") (cat delete_extra_space
      (cat (ins "quantity: \"") (cat suffix (ins "\""))))))

/-- The decimal path (b) of `get_quantity`:
`decimal + delete_extra_space + insert("quantity: \"") + (suffix | "thousand") +
insert("\"")`. -/
def quantityPathB (decimal : FST) : FST :=
  cat decimal (cat delete_extra_space
    (cat (ins "quantity: \"") (cat (u suffix (lit "thousand")) (ins "\""))))

/-- `get_quantity`: the union of the bare-cardinal path and the decimal path. -/
def get_quantity (decimal cardinal_up_to_hundred : FST) : FST :=
  u (quantityPathA cardinal_up_to_hundred) (quantityPathB decimal)

/-! ## The source translation: `DecimalFst.__init__` -/

/-- `cardinal_graph = cardinal.graph_no_exception | string_file(es/zero.tsv)`.
The external acceptor is a parameter. -/
def cardinal_graph (graph_no_exception : FST) : FST :=
  u graph_no_exception (table esZeroPairs)

/-- One spoken digit word: `string_file(digit.tsv) | string_file(zero.tsv)`. -/
def graph_digit_word : FST := u (table digitPairs) (table zeroPairs)

/-- The fractional digit-sequence builder:
`closure(graph_decimal + delete_space) + graph_decimal` over single digit
words. -/
def digit_sequence : FST :=
  cat (star (cat graph_digit_word delete_space)) graph_digit_word

/-- `graph_decimal` after its final rebinding: the digit-word sequence unioned
with the full cardinal acceptor. -/
def graph_decimal (graph_no_exception : FST) : FST :=
  u digit_sequence (cardinal_graph graph_no_exception)

/-- `decimal_point`: `cross("coma", ...) | cross("punto", ...)`. -/
def decimal_point : FST :=
  u (cross "coma" "morphosyntactic_features: \",\"")
    (cross "punto" "morphosyntactic_features: \".\"")

/-- `optional_graph_negative`:
`closure(insert("negative: ") + cross("menos", "\"true\"") + delete_extra_space, 0, 1)`. -/
def optional_graph_negative : FST :=
  opt (cat (ins "negative: ") (cat (cross "menos" "\"true\"") delete_extra_space))

/-- `graph_fractional = insert("fractional_part: \"") + graph_decimal + insert("\"")`. -/
def graph_fractional (graph_no_exception : FST) : FST :=
  cat (ins "fractional_part: \"")
    (cat (graph_decimal graph_no_exception) (ins "\""))

/-- `graph_integer = insert("integer_part: \"") + cardinal_graph + insert("\"")`. -/
def graph_integer (graph_no_exception : FST) : FST :=
  cat (ins "integer_part: \"") (cat (cardinal_graph graph_no_exception) (ins "\""))

/-- `final_graph_wo_sign`:
`closure(graph_integer + delete_extra_space, 0, 1) + decimal_point +
delete_extra_space + graph_fractional`. -/
def final_graph_wo_sign (graph_no_exception : FST) : FST :=
  cat (opt (cat (graph_integer graph_no_exception) delete_extra_space))
    (cat decimal_point (cat delete_extra_space (graph_fractional graph_no_exception)))

/-- `self.final_graph_wo_negative`: the base decimal unioned with its
quantity-augmented form. -/
def final_graph_wo_negative (graph_no_exception graph_hundred : FST) : FST :=
  u (final_graph_wo_sign graph_no_exception)
    (get_quantity (final_graph_wo_sign graph_no_exception) graph_hundred)

/-- `final_graph` (before the `add_tokens` envelope): the optional sign followed
by the base decimal, unioned with the optional sign followed by the
quantity-augmented form. -/
def final_graph (graph_no_exception graph_hundred : FST) : FST :=
  u (cat optional_graph_negative (final_graph_wo_sign graph_no_exception))
    (cat optional_graph_negative
      (get_quantity (final_graph_wo_sign graph_no_exception) graph_hundred))

/-! ## The conceptual output record (spec §3) and its rendering -/

/-- One emitted tag fragment `key: "value"`. -/
def fieldStr (k : String) (v : Str) : Str :=
  k.toList ++ (": \"").toList ++ v ++ ("\"").toList

/-- The spec's conceptual decimal record: optional fields in fixed order. -/
structure DecRecord where
  negative : Bool
  integer_part : Option Str
  morph : Option Str
  fractional_part : Option Str
  quantity : Option Str

/-- The fragments of one optional field. -/
def optField (k : String) (v : Option Str) : List Str :=
  match v with
  | none => []
  | some d => [fieldStr k d]

/-- Join fragments with single spaces. -/
def joinSp : List Str → Str
  | [] => []
  | [f] => f
  | f :: fs => f ++ ' ' :: joinSp fs

/-- Render a record as the emitted tagged string: the present fields, in fixed
order, separated by single spaces. -/
def render (r : DecRecord) : Str :=
  joinSp ((if r.negative then [fieldStr "negative" (toL "true")] else [])
    ++ optField "integer_part" r.integer_part
    ++ optField "morphosyntactic_features" r.morph
    ++ optField "fractional_part" r.fractional_part
    ++ optField "quantity" r.quantity)

/-! ## Smart constructors for concrete acceptance derivations -/

theorem u_l {R S : FST} {i o : Str} (h : R i o) : u R S i o := Or.inl h

theorem u_r {R S : FST} {i o : Str} (h : S i o) : u R S i o := Or.inr h

theorem cat_mk {R S : FST} (i1 i2 o1 o2 : Str) {i o : Str}
    (h1 : R i1 o1) (h2 : S i2 o2) (hi : i = i1 ++ i2) (ho : o = o1 ++ o2) :
    cat R S i o := ⟨i1, i2, o1, o2, h1, h2, hi, ho⟩

theorem ins_mk (t : String) : ins t [] (toL t) := ⟨rfl, rfl⟩

theorem lit_mk (s : String) : lit s (toL s) (toL s) := ⟨rfl, rfl⟩

theorem cross_mk (s t : String) : cross s t (toL s) (toL t) := ⟨rfl, rfl⟩

theorem des_mk : delete_extra_space [' '] [' '] := ⟨by decide, by decide, rfl⟩

theorem dsp_mk : delete_space [' '] [] := ⟨by decide, rfl⟩

theorem table_mk {ps : List (String × String)} (p : String × String)
    (hp : p ∈ ps) : table ps (toL p.1) (toL p.2) := ⟨p, hp, rfl, rfl⟩

theorem star_one {R : FST} {i o : Str} (h : R i o) : star R i o := by
  have h2 : star R (i ++ []) (o ++ []) := star.cons h star.nil
  simpa using h2

/-! ## Characterization lemmas -/

/-- `star NEMO_DIGIT` is the identity on digit strings. -/
theorem star_digit_shape {i o : Str} (h : star NEMO_DIGIT i o) :
    o = i ∧ ∀ c ∈ i, c.isDigit := by
  induction h with
  | nil => exact ⟨rfl, by simp⟩
  | cons h1 _ ih =>
    obtain ⟨c, hi1, ho1, hc⟩ := h1
    subst hi1; subst ho1
    refine ⟨by rw [ih.1], ?_⟩
    intro x hx
    rcases List.mem_append.1 hx with hx | hx
    · rcases List.mem_singleton.1 hx with rfl; exact hc
    · exact ih.2 x hx

/-- The `suffix` union accepts exactly the ten large-scale words, as an
identity acceptor. -/
theorem suffix_iff (i o : Str) :
    suffix i o ↔ o = i ∧ ∃ w ∈ suffixWords, i = toL w := by
  constructor
  · intro h
    rcases h with ⟨hi, ho⟩ | ⟨hi, ho⟩ | ⟨hi, ho⟩ | ⟨hi, ho⟩ | ⟨hi, ho⟩
      | ⟨hi, ho⟩ | ⟨hi, ho⟩ | ⟨hi, ho⟩ | ⟨hi, ho⟩ | ⟨hi, ho⟩ <;>
      subst hi <;> subst ho <;>
      exact ⟨rfl, _, by simp [suffixWords], rfl⟩
  · rintro ⟨rfl, w, hw, rfl⟩
    simp only [suffixWords, List.mem_cons, List.not_mem_nil, or_false] at hw
    rcases hw with rfl | rfl | rfl | rfl | rfl | rfl | rfl | rfl | rfl | rfl
    · exact Or.inl ⟨rfl, rfl⟩
    · exact Or.inr (Or.inl ⟨rfl, rfl⟩)
    · exact Or.inr (Or.inr (Or.inl ⟨rfl, rfl⟩))
    · exact Or.inr (Or.inr (Or.inr (Or.inl ⟨rfl, rfl⟩)))
    · exact Or.inr (Or.inr (Or.inr (Or.inr (Or.inl ⟨rfl, rfl⟩))))
    · exact Or.inr (Or.inr (Or.inr (Or.inr (Or.inr (Or.inl ⟨rfl, rfl⟩)))))
    · exact Or.inr (Or.inr (Or.inr (Or.inr (Or.inr (Or.inr (Or.inl ⟨rfl, rfl⟩))))))
    · exact Or.inr (Or.inr (Or.inr (Or.inr (Or.inr (Or.inr (Or.inr
        (Or.inl ⟨rfl, rfl⟩)))))))
    · exact Or.inr (Or.inr (Or.inr (Or.inr (Or.inr (Or.inr (Or.inr (Or.inr
        (Or.inl ⟨rfl, rfl⟩))))))))
    · exact Or.inr (Or.inr (Or.inr (Or.inr (Or.inr (Or.inr (Or.inr (Or.inr
        (Or.inr ⟨rfl, rfl⟩))))))))

/-- The decimal path's suffix alternatives accept exactly the ten large-scale
words plus the literal `thousand`. -/
theorem suffix_thousand_iff (i o : Str) :
    u suffix (lit "thousand") i o ↔
      o = i ∧ ∃ w ∈ suffixWords ++ ["thousand"], i = toL w := by
  constructor
  · rintro (h | ⟨hi, ho⟩)
    · obtain ⟨rfl, w, hw, rfl⟩ := (suffix_iff _ _).1 h
      exact ⟨rfl, w, List.mem_append_left _ hw, rfl⟩
    · subst hi; subst ho
      exact ⟨rfl, "thousand", by simp, rfl⟩
  · rintro ⟨rfl, w, hw, rfl⟩
    rcases List.mem_append.1 hw with hw | hw
    · exact Or.inl ((suffix_iff _ _).2 ⟨rfl, w, hw, rfl⟩)
    · rcases List.mem_singleton.1 hw with rfl
      exact Or.inr ⟨rfl, rfl⟩

/-! ## Literal-splitting facts for the emitted fragments -/

theorem splitInt : toL "integer_part: \"" = toL "integer_part" ++ toL ": \"" := by
  decide

theorem splitFrac :
    toL "fractional_part: \"" = toL "fractional_part" ++ toL ": \"" := by decide

theorem splitQuant : toL "quantity: \"" = toL "quantity" ++ toL ": \"" := by decide

theorem splitMorphComma :
    toL "morphosyntactic_features: \",\"" =
      toL "morphosyntactic_features" ++ toL ": \"" ++ [','] ++ toL "\"" := by decide

theorem splitMorphDot :
    toL "morphosyntactic_features: \".\"" =
      toL "morphosyntactic_features" ++ toL ": \"" ++ ['.'] ++ toL "\"" := by decide

theorem splitNeg :
    toL "negative: " ++ toL "\"true\"" =
      toL "negative" ++ toL ": \"" ++ toL "true" ++ toL "\"" := by decide

/-! ## Shape of accepted outputs -/

/-- Every output of the base (non-quantity) decimal path is the rendering of a
record with no negative and no quantity field, a present separator feature
(`,` or `.`), and a present fractional part produced by `graph_decimal`; its
input contains one of the two separator words. -/
theorem woSign_shape {c : FST} {i o : Str} (h : final_graph_wo_sign c i o) :
    ∃ ip mv fv fi,
      graph_decimal c fi fv ∧ (mv = [','] ∨ mv = ['.']) ∧
      o = render ⟨false, ip, some mv, some fv, none⟩ ∧
      ((toL "coma" <:+: i) ∨ (toL "punto" <:+: i)) := by
  obtain ⟨i1, i2, o1, o2, hopt, hrest, rfl, rfl⟩ := h
  obtain ⟨i3, i4, o3, o4, hdp, hrest2, rfl, rfl⟩ := hrest
  obtain ⟨i5, i6, o5, o6, hdes, hgf, rfl, rfl⟩ := hrest2
  obtain ⟨-, -, rfl⟩ := hdes
  obtain ⟨i7, i8, o7, o8, ⟨rfl, rfl⟩, hrest3, rfl, rfl⟩ := hgf
  obtain ⟨i9, i10, o9, o10, hgd, ⟨rfl, rfl⟩, rfl, rfl⟩ := hrest3
  have hinfix : (toL "coma" <:+: i1 ++ (i3 ++ (i5 ++ ([] ++ (i9 ++ []))))) ∨
      (toL "punto" <:+: i1 ++ (i3 ++ (i5 ++ ([] ++ (i9 ++ []))))) := by
    rcases hdp with ⟨rfl, -⟩ | ⟨rfl, -⟩
    · exact Or.inl ⟨i1, i5 ++ ([] ++ (i9 ++ [])), by simp [toL]⟩
    · exact Or.inr ⟨i1, i5 ++ ([] ++ (i9 ++ [])), by simp [toL]⟩
  rcases hopt with ⟨rfl, rfl⟩ | hint
  · rcases hdp with ⟨rfl, rfl⟩ | ⟨rfl, rfl⟩
    · exact ⟨none, [','], o9, i9, hgd, Or.inl rfl, by
        simp [render, joinSp, optField, fieldStr, toL, splitMorphComma, splitFrac,
          List.append_assoc], hinfix⟩
    · exact ⟨none, ['.'], o9, i9, hgd, Or.inr rfl, by
        simp [render, joinSp, optField, fieldStr, toL, splitMorphDot, splitFrac,
          List.append_assoc], hinfix⟩
  · obtain ⟨ia, ib, oa, ob, hgi, hdes1, rfl, rfl⟩ := hint
    obtain ⟨-, -, rfl⟩ := hdes1
    obtain ⟨ic, id', oc, od, ⟨rfl, rfl⟩, hrest4, rfl, rfl⟩ := hgi
    obtain ⟨ie, if', oe, og, hcg, ⟨rfl, rfl⟩, rfl, rfl⟩ := hrest4
    rcases hdp with ⟨rfl, rfl⟩ | ⟨rfl, rfl⟩
    · exact ⟨some oe, [','], o9, i9, hgd, Or.inl rfl, by
        simp [render, joinSp, optField, fieldStr, toL, splitMorphComma, splitFrac,
          splitInt, List.append_assoc], hinfix⟩
    · exact ⟨some oe, ['.'], o9, i9, hgd, Or.inr rfl, by
        simp [render, joinSp, optField, fieldStr, toL, splitMorphDot, splitFrac,
          splitInt, List.append_assoc], hinfix⟩

/-- Appending a quantity fragment to a rendered quantity-free record renders
the record with the quantity field filled. -/
theorem render_add_quantity (ip : Option Str) (mv fv q : Str) :
    render ⟨false, ip, some mv, some fv, none⟩ ++ ' ' :: fieldStr "quantity" q =
      render ⟨false, ip, some mv, some fv, some q⟩ := by
  cases ip <;> simp [render, joinSp, optField, List.append_assoc]

/-- Prepending the negative fragment to a rendered record with at least one
present field renders the record with the negative flag set. -/
theorem render_true (ip m f q : Option Str)
    (h : ip.isSome ∨ m.isSome ∨ f.isSome ∨ q.isSome) :
    render ⟨true, ip, m, f, q⟩ =
      fieldStr "negative" (toL "true") ++ ' ' :: render ⟨false, ip, m, f, q⟩ := by
  rcases ip with - | d <;> rcases m with - | mv <;> rcases f with - | fv <;>
    rcases q with - | qv <;> first | rfl | simp at h

/-- Shape of the bare-cardinal quantity path: the output renders a record with
only `integer_part` (a magnitude-filtered value) and `quantity` (one of the ten
large-scale words); the input ends in that scale word after a mandatory
whitespace separator. -/
theorem pathA_shape {ch : FST} {i o : Str} (h : quantityPathA ch i o) :
    ∃ d w sp ni, numbers ch ni d ∧ w ∈ suffixWords ∧ sp ≠ [] ∧
      (∀ x ∈ sp, isWS x = true) ∧ i = ni ++ sp ++ toL w ∧
      o = render ⟨false, some d, none, none, some (toL w)⟩ := by
  obtain ⟨i1, i2, o1, o2, ⟨rfl, rfl⟩, hrest, rfl, rfl⟩ := h
  obtain ⟨i3, i4, o3, o4, hnum, hrest2, rfl, rfl⟩ := hrest
  obtain ⟨i5, i6, o5, o6, ⟨rfl, rfl⟩, hrest3, rfl, rfl⟩ := hrest2
  obtain ⟨i7, i8, o7, o8, hdes, hrest4, rfl, rfl⟩ := hrest3
  obtain ⟨hne, hws, rfl⟩ := hdes
  obtain ⟨i9, i10, o9, o10, ⟨rfl, rfl⟩, hrest5, rfl, rfl⟩ := hrest4
  obtain ⟨i11, i12, o11, o12, hsuf, ⟨rfl, rfl⟩, rfl, rfl⟩ := hrest5
  obtain ⟨rfl, w, hw, rfl⟩ := (suffix_iff _ _).1 hsuf
  exact ⟨o3, w, i7, i3, hnum, hw, hne, hws, by simp [List.append_assoc], by
    simp [render, joinSp, optField, fieldStr, toL, splitInt, splitQuant,
      List.append_assoc]⟩

/-- Shape of the decimal quantity path: a `decimal`-accepted pair followed by a
mandatory whitespace separator and a scale word — one of the ten large-scale
words or the literal `thousand` — whose quantity fragment is appended to the
decimal's own output. -/
theorem pathB_shape {d : FST} {i o : Str} (h : quantityPathB d i o) :
    ∃ i1 sp w od, d i1 od ∧ sp ≠ [] ∧ (∀ x ∈ sp, isWS x = true) ∧
      w ∈ suffixWords ++ ["thousand"] ∧ i = i1 ++ sp ++ toL w ∧
      o = od ++ ' ' :: fieldStr "quantity" (toL w) := by
  obtain ⟨i1, i2, o1, o2, hdec, hrest, rfl, rfl⟩ := h
  obtain ⟨i3, i4, o3, o4, hdes, hrest2, rfl, rfl⟩ := hrest
  obtain ⟨hne, hws, rfl⟩ := hdes
  obtain ⟨i5, i6, o5, o6, ⟨rfl, rfl⟩, hrest3, rfl, rfl⟩ := hrest2
  obtain ⟨i7, i8, o7, o8, hsuf, ⟨rfl, rfl⟩, rfl, rfl⟩ := hrest3
  obtain ⟨rfl, w, hw, rfl⟩ := (suffix_thousand_iff _ _).1 hsuf
  exact ⟨i1, i3, w, o1, hdec, hne, hws, hw, by simp [List.append_assoc], by
    simp [fieldStr, toL, splitQuant, List.append_assoc]⟩

/-- Every input accepted by `get_quantity` ends in a scale word: one of the ten
large-scale words or the literal `thousand`. -/
theorem quantity_input_shape {d ch : FST} {i o : Str}
    (h : get_quantity d ch i o) :
    ∃ w ∈ suffixWords ++ ["thousand"], toL w <:+ i := by
  rcases h with h | h
  · obtain ⟨-, w, -, -, -, hw, -, -, rfl, -⟩ := pathA_shape h
    exact ⟨w, List.mem_append_left _ hw, _, rfl⟩
  · obtain ⟨i1, sp, w, od, -, -, -, hw, rfl, -⟩ := pathB_shape h
    exact ⟨w, hw, _, rfl⟩

/-- Every output of the base decimal or quantity grammar (the signless union)
begins with `i` (of `integer_part`) or `m` (of `morphosyntactic_features`). -/
theorem noSign_head {c ch : FST} {i o : Str}
    (h : final_graph_wo_negative c ch i o) :
    o.head? = some 'i' ∨ o.head? = some 'm' := by
  have base : ∀ j p, final_graph_wo_sign c j p →
      p.head? = some 'i' ∨ p.head? = some 'm' := by
    intro j p hb
    obtain ⟨ip, mv, fv, fi, -, -, rfl, -⟩ := woSign_shape hb
    rcases ip with - | d
    · exact Or.inr (by simp [render, joinSp, optField, fieldStr, toL])
    · exact Or.inl (by simp [render, joinSp, optField, fieldStr, toL])
  rcases h with h | h
  · exact base _ _ h
  · rcases h with h | h
    · obtain ⟨d, w, sp, ni, -, -, -, -, -, rfl⟩ := pathA_shape h
      exact Or.inl (by simp [render, joinSp, optField, fieldStr, toL])
    · obtain ⟨i1, sp, w, od, hdec, -, -, -, -, rfl⟩ := pathB_shape h
      rcases base _ _ hdec with ht | ht <;> rcases od with - | ⟨c0, t⟩ <;>
        simp_all

/-- Every input accepted by the final transducer contains a separator word
(`coma` or `punto`) or ends in a scale word. -/
theorem final_input_shape {c ch : FST} {i o : Str} (h : final_graph c ch i o) :
    (toL "coma" <:+: i) ∨ (toL "punto" <:+: i) ∨
      ∃ w ∈ suffixWords ++ ["thousand"], toL w <:+ i := by
  have lift : ∀ (pre rest : Str),
      ((toL "coma" <:+: rest) ∨ (toL "punto" <:+: rest) ∨
        ∃ w ∈ suffixWords ++ ["thousand"], toL w <:+ rest) →
      ((toL "coma" <:+: pre ++ rest) ∨ (toL "punto" <:+: pre ++ rest) ∨
        ∃ w ∈ suffixWords ++ ["thousand"], toL w <:+ pre ++ rest) := by
    rintro pre rest (⟨s, t, rfl⟩ | ⟨s, t, rfl⟩ | ⟨w, hw, s, rfl⟩)
    · exact Or.inl ⟨pre ++ s, t, by simp [List.append_assoc]⟩
    · exact Or.inr (Or.inl ⟨pre ++ s, t, by simp [List.append_assoc]⟩)
    · exact Or.inr (Or.inr ⟨w, hw, pre ++ s, by simp [List.append_assoc]⟩)
  have core : ∀ j p, final_graph_wo_negative c ch j p →
      (toL "coma" <:+: j) ∨ (toL "punto" <:+: j) ∨
        ∃ w ∈ suffixWords ++ ["thousand"], toL w <:+ j := by
    intro j p hb
    rcases hb with hb | hb
    · obtain ⟨-, -, -, -, -, -, -, hin⟩ := woSign_shape hb
      rcases hin with hin | hin
      · exact Or.inl hin
      · exact Or.inr (Or.inl hin)
    · exact Or.inr (Or.inr (quantity_input_shape hb))
  rcases h with h | h <;>
  · obtain ⟨i1, i2, o1, o2, hneg, hrest, rfl, -⟩ := h
    exact lift i1 i2 (core _ _ (by first | exact Or.inl hrest | exact Or.inr hrest))

/-! ## Concrete acceptance derivations for the scenario inputs -/

theorem accept_integer_uno :
    graph_integer modelCardinal (toL "uno") (toL "integer_part: \"1\"") := by
  refine cat_mk [] (toL "uno") (toL "integer_part: \"") (toL "1\"") (ins_mk _)
    ?_ (by decide) (by decide)
  exact cat_mk (toL "uno") [] (toL "1") (toL "\"")
    (u_l (table_mk ("uno", "1") (by decide))) (ins_mk _) (by decide) (by decide)

theorem accept_frac_dos_seis :
    graph_fractional modelCardinal (toL "dos seis") (toL "fractional_part: \"26\"") := by
  refine cat_mk [] (toL "dos seis") (toL "fractional_part: \"") (toL "26\"")
    (ins_mk _) ?_ (by decide) (by decide)
  refine cat_mk (toL "dos seis") [] (toL "26") (toL "\"") (u_l ?_) (ins_mk _)
    (by decide) (by decide)
  exact cat_mk (toL "dos ") (toL "seis") (toL "2") (toL "6")
    (star_one (cat_mk (toL "dos") [' '] (toL "2") []
      (u_l (table_mk ("dos", "2") (by decide))) dsp_mk (by decide) (by decide)))
    (u_l (table_mk ("seis", "6") (by decide))) (by decide) (by decide)

theorem accept_frac_dos :
    graph_fractional modelCardinal (toL "dos") (toL "fractional_part: \"2\"") := by
  refine cat_mk [] (toL "dos") (toL "fractional_part: \"") (toL "2\"")
    (ins_mk _) ?_ (by decide) (by decide)
  refine cat_mk (toL "dos") [] (toL "2") (toL "\"") (u_l ?_) (ins_mk _)
    (by decide) (by decide)
  exact cat_mk [] (toL "dos") [] (toL "2") star.nil
    (u_l (table_mk ("dos", "2") (by decide))) (by decide) (by decide)

/-- Scenario derivation: `uno coma dos seis` on the base decimal path. -/
theorem accept_uno_coma_dos_seis :
    final_graph_wo_sign modelCardinal (toL "uno coma dos seis")
      (toL "integer_part: \"1\" morphosyntactic_features: \",\" fractional_part: \"26\"") := by
  refine cat_mk (toL "uno ") (toL "coma dos seis") (toL "integer_part: \"1\" ")
    (toL "morphosyntactic_features: \",\" fractional_part: \"26\"")
    (Or.inr ?_) ?_ (by decide) (by decide)
  · exact cat_mk (toL "uno") [' '] (toL "integer_part: \"1\"") [' ']
      accept_integer_uno des_mk (by decide) (by decide)
  · refine cat_mk (toL "coma") (toL " dos seis")
      (toL "morphosyntactic_features: \",\"") (toL " fractional_part: \"26\"")
      (u_l (cross_mk "coma" "morphosyntactic_features: \",\"")) ?_
      (by decide) (by decide)
    exact cat_mk [' '] (toL "dos seis") [' '] (toL "fractional_part: \"26\"")
      des_mk accept_frac_dos_seis (by decide) (by decide)

/-- Scenario derivation: `uno coma dos` on the base decimal path. -/
theorem accept_uno_coma_dos :
    final_graph_wo_sign modelCardinal (toL "uno coma dos")
      (toL "integer_part: \"1\" morphosyntactic_features: \",\" fractional_part: \"2\"") := by
  refine cat_mk (toL "uno ") (toL "coma dos") (toL "integer_part: \"1\" ")
    (toL "morphosyntactic_features: \",\" fractional_part: \"2\"")
    (Or.inr ?_) ?_ (by decide) (by decide)
  · exact cat_mk (toL "uno") [' '] (toL "integer_part: \"1\"") [' ']
      accept_integer_uno des_mk (by decide) (by decide)
  · refine cat_mk (toL "coma") (toL " dos")
      (toL "morphosyntactic_features: \",\"") (toL " fractional_part: \"2\"")
      (u_l (cross_mk "coma" "morphosyntactic_features: \",\"")) ?_
      (by decide) (by decide)
    exact cat_mk [' '] (toL "dos") [' '] (toL "fractional_part: \"2\"")
      des_mk accept_frac_dos (by decide) (by decide)

/-- Scenario derivation: `dos millones` on the bare-cardinal quantity path. -/
theorem accept_dos_millones_pathA :
    quantityPathA modelCardinal (toL "dos millones")
      (toL "integer_part: \"2\" quantity: \"millones\"") := by
  refine cat_mk [] (toL "dos millones") (toL "integer_part: \"")
    (toL "2\" quantity: \"millones\"") (ins_mk _) ?_ (by decide) (by decide)
  refine cat_mk (toL "dos") (toL " millones") (toL "2")
    (toL "\" quantity: \"millones\"")
    ⟨toL "2", table_mk ("dos", "2") (by decide), ?_⟩ ?_ (by decide) (by decide)
  · exact cat_mk [] (toL "2") [] (toL "2") ⟨by decide, rfl⟩
      (cat_mk (toL "2") [] (toL "2") [] ⟨⟨'2', rfl, rfl, by decide⟩, by decide⟩
        star.nil (by decide) (by decide)) (by decide) (by decide)
  · refine cat_mk [] (toL " millones") (toL "\"") (toL " quantity: \"millones\"")
      (ins_mk _) ?_ (by decide) (by decide)
    refine cat_mk [' '] (toL "millones") [' '] (toL "quantity: \"millones\"")
      des_mk ?_ (by decide) (by decide)
    refine cat_mk [] (toL "millones") (toL "quantity: \"") (toL "millones\"")
      (ins_mk _) ?_ (by decide) (by decide)
    exact cat_mk (toL "millones") [] (toL "millones") (toL "\"")
      (u_r (u_l (lit_mk "millones"))) (ins_mk _) (by decide) (by decide)

/-- Scenario derivation: `uno coma dos thousand` on the decimal quantity path. -/
theorem accept_uno_coma_dos_thousand :
    quantityPathB (final_graph_wo_sign modelCardinal) (toL "uno coma dos thousand")
      (toL "integer_part: \"1\" morphosyntactic_features: \",\" fractional_part: \"2\" quantity: \"thousand\"") := by
  refine cat_mk (toL "uno coma dos") (toL " thousand")
    (toL "integer_part: \"1\" morphosyntactic_features: \",\" fractional_part: \"2\"")
    (toL " quantity: \"thousand\"") accept_uno_coma_dos ?_ (by decide) (by decide)
  refine cat_mk [' '] (toL "thousand") [' '] (toL "quantity: \"thousand\"")
    des_mk ?_ (by decide) (by decide)
  refine cat_mk [] (toL "thousand") (toL "quantity: \"") (toL "thousand\"")
    (ins_mk _) ?_ (by decide) (by decide)
  exact cat_mk (toL "thousand") [] (toL "thousand") (toL "\"")
    (u_r (lit_mk "thousand")) (ins_mk _) (by decide) (by decide)

/-- Scenario derivation: the full transducer accepts
`menos uno coma dos seis`. -/
theorem accept_menos_uno_coma_dos_seis :
    final_graph modelCardinal modelCardinal (toL "menos uno coma dos seis")
      (toL "negative: \"true\" integer_part: \"1\" morphosyntactic_features: \",\" fractional_part: \"26\"") := by
  refine u_l (cat_mk (toL "menos ") (toL "uno coma dos seis")
    (toL "negative: \"true\" ")
    (toL "integer_part: \"1\" morphosyntactic_features: \",\" fractional_part: \"26\"")
    (Or.inr ?_) accept_uno_coma_dos_seis (by decide) (by decide))
  refine cat_mk [] (toL "menos ") (toL "negative: ") (toL "\"true\" ")
    (ins_mk _) ?_ (by decide) (by decide)
  exact cat_mk (toL "menos") [' '] (toL "\"true\"") [' ']
    (cross_mk "menos" "\"true\"") des_mk (by decide) (by decide)

/-! ## Whitespace-run splitting -/

/-- A string that does not begin with whitespace. -/
def noLeadWS (i : Str) : Bool :=
  match i with
  | [] => true
  | c :: _ => !(isWS c)

theorem head_append (x y : Str) (h : noLeadWS x = true ∧ x ≠ []) :
    noLeadWS (x ++ y) = true ∧ x ++ y ≠ [] := by
  obtain ⟨h1, h2⟩ := h
  cases x with
  | nil => exact absurd rfl h2
  | cons c t => exact ⟨by simpa [noLeadWS] using h1, by simp⟩

/-- A nonempty whitespace run followed by a non-whitespace-headed remainder
splits a string uniquely. -/
theorem ws_split : ∀ sp sp' i i' : Str, sp ≠ [] → sp' ≠ [] →
    (∀ x ∈ sp, isWS x = true) → (∀ x ∈ sp', isWS x = true) →
    noLeadWS i = true → noLeadWS i' = true →
    sp ++ i = sp' ++ i' → sp = sp' ∧ i = i' := by
  intro sp
  induction sp with
  | nil => simp
  | cons a sp0 ih =>
    intro sp' i i' _ hne' hws hws' hi hi' heq
    cases sp' with
    | nil => exact absurd rfl hne'
    | cons b sp0' =>
      injection heq with h1 h2
      subst h1
      cases sp0 with
      | nil =>
        cases sp0' with
        | nil => simpa using h2
        | cons c t =>
          have hi2 : i = c :: (t ++ i') := by simpa using h2
          rw [hi2] at hi
          have hcws : isWS c = true := hws' c (by simp)
          simp [noLeadWS, hcws] at hi
      | cons c t =>
        cases sp0' with
        | nil =>
          have hi2 : i' = c :: (t ++ i) := by simpa using h2.symm
          rw [hi2] at hi'
          have hcws : isWS c = true := hws c (by simp)
          simp [noLeadWS, hcws] at hi'
        | cons d t' =>
          have := ih (d :: t') i i' (by simp) (by simp)
            (fun x hx => hws x (by simp [hx])) (fun x hx => hws' x (by simp [hx]))
            hi hi' h2
          exact ⟨by rw [this.1], this.2⟩

/-! ## Heads of accepted inputs -/

theorem cardinal_graph_head {c : FST}
    (hc : ∀ i o, c i o → noLeadWS i = true ∧ i ≠ []) :
    ∀ i o, cardinal_graph c i o → noLeadWS i = true ∧ i ≠ [] := by
  rintro i o (h | ⟨p, hp, rfl, rfl⟩)
  · exact hc i o h
  · fin_cases hp
    exact ⟨by decide, by decide⟩

/-- Split a nonempty string with a non-whitespace head as a cons cell. -/
theorem head_cons {x : Str} (h : noLeadWS x = true ∧ x ≠ []) :
    ∃ c0 t, x = c0 :: t ∧ isWS c0 = false := by
  cases x with
  | nil => exact absurd rfl h.2
  | cons c0 t => exact ⟨c0, t, rfl, by simpa [noLeadWS] using h.1⟩

theorem woSign_input_head {c : FST}
    (hc : ∀ i o, c i o → noLeadWS i = true ∧ i ≠ []) :
    ∀ i o, final_graph_wo_sign c i o → noLeadWS i = true ∧ i ≠ [] := by
  rintro i o ⟨i1, i2, o1, o2, hopt, hrest, rfl, -⟩
  obtain ⟨i3, i4, o3, o4, hdp, -, rfl, -⟩ := hrest
  have hdphead : noLeadWS i3 = true ∧ i3 ≠ [] := by
    rcases hdp with ⟨rfl, -⟩ | ⟨rfl, -⟩ <;> exact ⟨by decide, by decide⟩
  rcases hopt with ⟨rfl, -⟩ | hint
  · obtain ⟨c0, t, rfl, hc0⟩ := head_cons hdphead
    exact ⟨by simp [noLeadWS, hc0], by simp⟩
  · obtain ⟨ia, ib, oa, ob, hgi, -, rfl, -⟩ := hint
    obtain ⟨ic, idd, oc, od, hins, hrest2, rfl, -⟩ := hgi
    obtain ⟨ie, if2, oe, og, hcg, -, rfl, -⟩ := hrest2
    obtain ⟨hic, -⟩ := hins
    subst hic
    obtain ⟨c0, t, rfl, hc0⟩ := head_cons (cardinal_graph_head hc ie oe hcg)
    exact ⟨by simp [noLeadWS, hc0, toL], by simp [toL]⟩

theorem noSign_input_head {c ch : FST}
    (hc : ∀ i o, c i o → noLeadWS i = true ∧ i ≠ [])
    (hch : ∀ i o, ch i o → noLeadWS i = true ∧ i ≠ []) :
    ∀ i o, final_graph_wo_negative c ch i o → noLeadWS i = true ∧ i ≠ [] := by
  rintro i o (h | h | h)
  · exact woSign_input_head hc i o h
  · obtain ⟨i1, i2, o1, o2, hins, hrest, rfl, -⟩ := h
    obtain ⟨hic, -⟩ := hins
    subst hic
    obtain ⟨i3, i4, o3, o4, hnum, -, rfl, -⟩ := hrest
    obtain ⟨m, hchm, -⟩ := hnum
    obtain ⟨c0, t, rfl, hc0⟩ := head_cons (hch i3 m hchm)
    exact ⟨by simp [noLeadWS, hc0, toL], by simp [toL]⟩
  · obtain ⟨i1, i2, o1, o2, hdec, -, rfl, -⟩ := h
    exact head_append i1 i2 (woSign_input_head hc i1 o1 hdec)

/-! ## Facts about the modelled lexica -/

theorem modelCardinal_head :
    ∀ i o, modelCardinal i o → noLeadWS i = true ∧ i ≠ [] := by
  rintro i o ⟨p, hp, rfl, rfl⟩
  fin_cases hp <;> exact ⟨by decide, by decide⟩

theorem modelCardinal_ne : ∀ i o, modelCardinal i o → o ≠ [] := by
  rintro i o ⟨p, hp, rfl, rfl⟩
  fin_cases hp <;> decide

theorem graph_digit_word_ne : ∀ i o, graph_digit_word i o → o ≠ [] := by
  rintro i o (⟨p, hp, rfl, rfl⟩ | ⟨p, hp, rfl, rfl⟩) <;> fin_cases hp <;> decide

theorem graph_decimal_ne {c : FST} (hc : ∀ i o, c i o → o ≠ []) :
    ∀ i o, graph_decimal c i o → o ≠ [] := by
  rintro i o (h | h | ⟨p, hp, rfl, rfl⟩)
  · obtain ⟨i1, i2, o1, o2, -, hword, -, rfl⟩ := h
    have := graph_digit_word_ne i2 o2 hword
    simp [this]
  · exact hc i o h
  · fin_cases hp
    decide

/-! ## Support for the digit-word sequence claims -/

/-- The spoken form of a list of lexicon entries: the words joined by single
spaces. -/
def spokenWords : List (String × String) → Str
  | [] => []
  | [p] => toL p.1
  | p :: ps => toL p.1 ++ ' ' :: spokenWords ps

/-- The concatenated digit characters of a list of lexicon entries. -/
def digitChars : List (String × String) → Str
  | [] => []
  | p :: ps => toL p.2 ++ digitChars ps

theorem word_of_pair (p : String × String)
    (hp : p ∈ digitPairs ∨ p ∈ zeroPairs) :
    graph_digit_word (toL p.1) (toL p.2) := by
  rcases hp with hp | hp
  · exact Or.inl (table_mk p hp)
  · exact Or.inr (table_mk p hp)

theorem pair_digits :
    ∀ p ∈ digitPairs ++ zeroPairs, ∀ c ∈ toL p.2, c.isDigit := by decide

/-! ## The claims -/

/-- C1: every value accepted by the bare-cardinal quantity path's magnitude
filter (`cardinal @ (delete(closure("0")) + (NEMO_DIGIT - "0") +
closure(NEMO_DIGIT))`) is a digit string whose first character is a non-zero
digit: no leading zero and not all zeros. Moreover the filter itself rejects
every all-zero value, and the path is inhabited (a cardinal emitting the
zero-padded `02` passes as `2`). -/
theorem C1_magnitude_filter :
    (∀ (card : FST) (i o : Str), numbers card i o →
      ∃ c cs, o = c :: cs ∧ c.isDigit ∧ c ≠ '0' ∧ (∀ x ∈ cs, x.isDigit) ∧
        ¬ ∀ x ∈ o, x = '0') ∧
    (∀ m o', (∀ x ∈ m, x = '0') →
      ¬ cat delStarZero (cat diffZero (star NEMO_DIGIT)) m o') ∧
    numbers (cross "dos" "02") (toL "dos") (toL "2") := by
  refine ⟨?_, ?_, ?_⟩
  · intro card i o h
    obtain ⟨m, -, hf⟩ := h
    obtain ⟨i1, i2, o1, o2, ⟨-, rfl⟩, hrest, -, rfl⟩ := hf
    obtain ⟨i3, i4, o3, o4, ⟨⟨c, rfl, rfl, hcdig⟩, hne⟩, hstar, -, rfl⟩ := hrest
    obtain ⟨rfl, hdig⟩ := star_digit_shape hstar
    refine ⟨c, o4, by simp, hcdig, fun hc0 => hne (by simp [hc0]), hdig, ?_⟩
    intro hall
    exact hne (by simp [hall c (by simp)])
  · intro m o' hz h
    obtain ⟨i1, i2, o1, o2, ⟨-, rfl⟩, hrest, heq, -⟩ := h
    obtain ⟨i3, i4, o3, o4, ⟨⟨c, rfl, rfl, -⟩, hne⟩, -, heq2, -⟩ := hrest
    have hcm : c ∈ m := by
      rw [heq, heq2]; simp
    exact hne (by simp [hz c hcm])
  · refine ⟨toL "02", ⟨rfl, rfl⟩, ?_⟩
    refine cat_mk ['0'] ['2'] [] (toL "2") ⟨by decide, rfl⟩ ?_ (by decide) (by decide)
    exact cat_mk ['2'] [] ['2'] [] ⟨⟨'2', rfl, rfl, by decide⟩, by decide⟩
      star.nil (by decide) (by decide)

/-- C2: the bare-cardinal path's scale-word set is exactly the ten large-scale
words (excluding `thousand`); the decimal path's set is exactly those ten plus
`thousand`; the two paths are combined by union. -/
theorem C2_scale_word_sets :
    (∀ i o, suffix i o ↔ (o = i ∧ ∃ w ∈ suffixWords, i = toL w)) ∧
    (∀ i o, u suffix (lit "thousand") i o ↔
      (o = i ∧ ∃ w ∈ suffixWords ++ ["thousand"], i = toL w)) ∧
    "thousand" ∉ suffixWords ∧
    (∀ o, ¬ suffix (toL "thousand") o) ∧
    (∀ d ch, get_quantity d ch = u (quantityPathA ch) (quantityPathB d)) := by
  refine ⟨suffix_iff, suffix_thousand_iff, by decide, ?_, fun d ch => rfl⟩
  intro o h
  obtain ⟨-, w, hw, hww⟩ := (suffix_iff _ _).1 h
  exact (by decide : ∀ w ∈ suffixWords, ¬ toL "thousand" = toL w) w hw hww

/-- C3: the decimal-point marker maps exactly the two separator words, `coma`
to the `,` feature fragment and `punto` to the `.` fragment; it is functional
(never both fragments for one input) and the two fragments are distinct. -/
theorem C3_decimal_point_marker :
    (∀ i o, decimal_point i o ↔
      ((i = toL "coma" ∧ o = toL "morphosyntactic_features: \",\"") ∨
       (i = toL "punto" ∧ o = toL "morphosyntactic_features: \".\""))) ∧
    (∀ i o o', decimal_point i o → decimal_point i o' → o = o') ∧
    toL "morphosyntactic_features: \",\"" ≠ toL "morphosyntactic_features: \".\"" := by
  refine ⟨fun i o => Iff.rfl, ?_, by decide⟩
  intro i o o' h h'
  rcases h with ⟨rfl, rfl⟩ | ⟨rfl, rfl⟩ <;>
    rcases h' with ⟨hi, rfl⟩ | ⟨hi, rfl⟩ <;>
    first
      | rfl
      | exact absurd hi (by decide)

/-- C4: for every nonempty list of valid digit words separated by single
spaces, the fractional digit-sequence builder accepts the spoken form and
emits exactly the concatenation of the digit characters, which contains no
separator characters. -/
theorem C4_fractional_builder (ps : List (String × String)) (hne : ps ≠ [])
    (hmem : ∀ p ∈ ps, p ∈ digitPairs ∨ p ∈ zeroPairs) :
    digit_sequence (spokenWords ps) (digitChars ps) ∧
      ∀ c ∈ digitChars ps, c.isDigit := by
  induction ps with
  | nil => exact absurd rfl hne
  | cons p ps ih =>
    have hp := hmem p (by simp)
    have hw : graph_digit_word (toL p.1) (toL p.2) := word_of_pair p hp
    have hpd : ∀ c ∈ toL p.2, c.isDigit :=
      fun c hc => pair_digits p (List.mem_append.2 hp) c hc
    cases ps with
    | nil =>
      refine ⟨cat_mk [] (toL p.1) [] (toL p.2) star.nil hw
        (by simp [spokenWords]) (by simp [digitChars]), ?_⟩
      intro c hc
      exact hpd c (by simpa [digitChars] using hc)
    | cons q qs =>
      obtain ⟨hseq, hdig⟩ := ih (by simp)
        (fun r hr => hmem r (List.mem_cons_of_mem p hr))
      obtain ⟨i1, i2, o1, o2, hstar, hword, hieq, hoeq⟩ := hseq
      refine ⟨cat_mk (toL p.1 ++ [' '] ++ i1) i2 (toL p.2 ++ [] ++ o1) o2
        (star.cons (cat_mk (toL p.1) [' '] (toL p.2) [] hw dsp_mk rfl rfl) hstar)
        hword ?_ ?_, ?_⟩
      · show spokenWords (p :: q :: qs) = toL p.1 ++ [' '] ++ i1 ++ i2
        rw [show spokenWords (p :: q :: qs) = toL p.1 ++ ' ' :: spokenWords (q :: qs)
          from rfl, hieq]
        simp [List.append_assoc]
      · show digitChars (p :: q :: qs) = toL p.2 ++ [] ++ o1 ++ o2
        rw [show digitChars (p :: q :: qs) = toL p.2 ++ digitChars (q :: qs)
          from rfl, hoeq]
        simp [List.append_assoc]
      · intro c hc
        rw [show digitChars (p :: q :: qs) = toL p.2 ++ digitChars (q :: qs)
          from rfl] at hc
        rcases List.mem_append.1 hc with hc | hc
        · exact hpd c hc
        · exact hdig c hc

/-- C4 witness: the two-word sequence `dos seis` is accepted and emits `26`. -/
theorem C4_fractional_builder_witness :
    digit_sequence (spokenWords [("dos", "2"), ("seis", "6")])
      (digitChars [("dos", "2"), ("seis", "6")]) ∧
      ∀ c ∈ digitChars [("dos", "2"), ("seis", "6")], c.isDigit :=
  C4_fractional_builder _ (by decide) (by decide)

/-- C5: the sign marker is optional and orthogonal: an input prefixed with the
negation word and a whitespace separator is accepted with the output prefixed
by the negative fragment, if and only if the unprefixed input is accepted by
the signless grammar with the unprefixed output — every other emitted field is
identical. -/
theorem C5_sign_optional (c ch : FST) (sp i o : Str)
    (hc : ∀ i' o', c i' o' → noLeadWS i' = true ∧ i' ≠ [])
    (hch : ∀ i' o', ch i' o' → noLeadWS i' = true ∧ i' ≠ [])
    (hsp : sp ≠ []) (hspw : ∀ x ∈ sp, isWS x = true)
    (hi : noLeadWS i = true) :
    final_graph c ch (toL "menos" ++ sp ++ i) (toL "negative: \"true\" " ++ o) ↔
      final_graph_wo_negative c ch i o := by
  constructor
  · intro h
    have hcase : ∃ i1 i2 o1 o2, optional_graph_negative i1 o1 ∧
        final_graph_wo_negative c ch i2 o2 ∧
        toL "menos" ++ sp ++ i = i1 ++ i2 ∧
        toL "negative: \"true\" " ++ o = o1 ++ o2 := by
      rcases h with ⟨i1, i2, o1, o2, hneg, hX, hieq, hoeq⟩ |
        ⟨i1, i2, o1, o2, hneg, hX, hieq, hoeq⟩
      · exact ⟨i1, i2, o1, o2, hneg, Or.inl hX, hieq, hoeq⟩
      · exact ⟨i1, i2, o1, o2, hneg, Or.inr hX, hieq, hoeq⟩
    obtain ⟨i1, i2, o1, o2, hneg, hX, hieq, hoeq⟩ := hcase
    rcases hneg with ⟨rfl, rfl⟩ | hneg
    · exfalso
      have ho2 : o2 = toL "negative: \"true\" " ++ o := by simpa using hoeq.symm
      rcases noSign_head hX with hh | hh <;>
      · rw [ho2, show toL "negative: \"true\" " = 'n' :: toL "egative: \"true\" "
          from by decide] at hh
        simp only [List.cons_append, List.head?_cons, Option.some.injEq] at hh
        exact absurd hh (by decide)
    · obtain ⟨ia, ib, oa, ob, hins, hrest, rfl, rfl⟩ := hneg
      obtain ⟨hia, hoa⟩ := hins
      subst hia; subst hoa
      obtain ⟨ic, idd, oc, od, hcross, hdes, rfl, rfl⟩ := hrest
      obtain ⟨hic, hoc⟩ := hcross
      subst hic; subst hoc
      obtain ⟨hdne, hdws, rfl⟩ := hdes
      have hieq2 : sp ++ i = idd ++ i2 := by
        have h3 : toL "menos" ++ (sp ++ i) = toL "menos" ++ (idd ++ i2) := by
          simpa [List.append_assoc, toL] using hieq
        exact List.append_cancel_left h3
      have hi2 := noSign_input_head hc hch i2 o2 hX
      obtain ⟨-, hi_eq⟩ := ws_split sp idd i i2 hsp hdne hspw hdws hi hi2.1 hieq2
      have ho2 : o = o2 := by
        have h' := hoeq
        rw [show toL "negative: \"true\" " =
          ("negative: ").toList ++ (("\"true\"").toList ++ [' ']) from by decide] at h'
        simp only [List.append_assoc, List.nil_append, toL] at h'
        exact List.append_cancel_left (List.append_cancel_left
          (List.append_cancel_left h'))
      rw [hi_eq, ho2]
      exact hX
  · intro h
    have split : optional_graph_negative (toL "menos" ++ sp)
        (toL "negative: \"true\" ") := by
      refine Or.inr (cat_mk [] (toL "menos" ++ sp) (toL "negative: ")
        (toL "\"true\" ") (ins_mk _) ?_ (by simp [toL]) (by decide))
      exact cat_mk (toL "menos") sp (toL "\"true\"") [' '] (cross_mk _ _)
        ⟨hsp, hspw, rfl⟩ rfl (by decide)
    rcases h with hX | hX
    · exact Or.inl (cat_mk (toL "menos" ++ sp) i (toL "negative: \"true\" ") o
        split hX (by simp [List.append_assoc]) rfl)
    · exact Or.inr (cat_mk (toL "menos" ++ sp) i (toL "negative: \"true\" ") o
        split hX (by simp [List.append_assoc]) rfl)

/-- C5 witness: adding `menos ` before `uno coma dos seis` adds exactly the
negative fragment before the otherwise identical output. -/
theorem C5_sign_optional_witness :
    (final_graph modelCardinal modelCardinal
      (toL "menos" ++ [' '] ++ toL "uno coma dos seis")
      (toL "negative: \"true\" " ++
        toL "integer_part: \"1\" morphosyntactic_features: \",\" fractional_part: \"26\"") ↔
      final_graph_wo_negative modelCardinal modelCardinal (toL "uno coma dos seis")
        (toL "integer_part: \"1\" morphosyntactic_features: \",\" fractional_part: \"26\"")) :=
  C5_sign_optional modelCardinal modelCardinal [' '] _ _
    modelCardinal_head modelCardinal_head (by decide) (by decide) (by decide)

theorem neg_prefix_eq (r : Str) :
    (("negative: ").toList ++ (("\"true\"").toList ++ [' '])) ++ r =
      fieldStr "negative" (toL "true") ++ ' ' :: r := by
  have h : ("negative: ").toList ++ (("\"true\"").toList ++ [' ']) =
      fieldStr "negative" (toL "true") ++ [' '] := by decide
  rw [h]
  simp [List.append_assoc]

/-- C6: every output of the final transducer is the rendering of a decimal
record in which the `morphosyntactic_features` field is present if and only if
the `fractional_part` field is present. -/
theorem C6_morph_iff_fractional (c ch : FST) (i o : Str)
    (h : final_graph c ch i o) :
    ∃ r : DecRecord, o = render r ∧ (r.morph.isSome ↔ r.fractional_part.isSome) := by
  have hrec : ∀ j p, final_graph_wo_negative c ch j p →
      ∃ ip m f q, p = render ⟨false, ip, m, f, q⟩ ∧ (m.isSome ↔ f.isSome) ∧
        (ip.isSome ∨ m.isSome ∨ f.isSome ∨ q.isSome) := by
    rintro j p (hb | hb | hb)
    · obtain ⟨ip, mv, fv, fi, -, -, rfl, -⟩ := woSign_shape hb
      exact ⟨ip, some mv, some fv, none, rfl, by simp, by simp⟩
    · obtain ⟨d, w, sp, ni, -, -, -, -, -, rfl⟩ := pathA_shape hb
      exact ⟨some d, none, none, some (toL w), rfl, by simp, by simp⟩
    · obtain ⟨i1, sp, w, od, hdec, -, -, -, -, rfl⟩ := pathB_shape hb
      obtain ⟨ip, mv, fv, fi, -, -, rfl, -⟩ := woSign_shape hdec
      exact ⟨ip, some mv, some fv, some (toL w),
        render_add_quantity ip mv fv (toL w), by simp, by simp⟩
  have hcase : ∃ i1 i2 o1 o2, optional_graph_negative i1 o1 ∧
      final_graph_wo_negative c ch i2 o2 ∧ i = i1 ++ i2 ∧ o = o1 ++ o2 := by
    rcases h with ⟨i1, i2, o1, o2, hneg, hX, hieq, hoeq⟩ |
      ⟨i1, i2, o1, o2, hneg, hX, hieq, hoeq⟩
    · exact ⟨i1, i2, o1, o2, hneg, Or.inl hX, hieq, hoeq⟩
    · exact ⟨i1, i2, o1, o2, hneg, Or.inr hX, hieq, hoeq⟩
  obtain ⟨i1, i2, o1, o2, hneg, hX, rfl, rfl⟩ := hcase
  obtain ⟨ip, m, f, q, rfl, hiff, hpresent⟩ := hrec i2 o2 hX
  rcases hneg with ⟨rfl, rfl⟩ | hneg
  · exact ⟨⟨false, ip, m, f, q⟩, by simp, hiff⟩
  · obtain ⟨ia, ib, oa, ob, hins, hrest, rfl, rfl⟩ := hneg
    obtain ⟨-, hoa⟩ := hins
    obtain ⟨ic, idd, oc, od, hcross, hdes, rfl, rfl⟩ := hrest
    obtain ⟨-, hoc⟩ := hcross
    obtain ⟨-, -, rfl⟩ := hdes
    subst hoa; subst hoc
    refine ⟨⟨true, ip, m, f, q⟩, ?_, hiff⟩
    rw [render_true ip m f q hpresent]
    exact neg_prefix_eq _

/-- C6 witness: the output for `menos uno coma dos seis` renders a record with
both the feature and fractional fields present. -/
theorem C6_morph_iff_fractional_witness :
    ∃ r : DecRecord,
      toL "negative: \"true\" integer_part: \"1\" morphosyntactic_features: \",\" fractional_part: \"26\"" =
        render r ∧ (r.morph.isSome ↔ r.fractional_part.isSome) :=
  C6_morph_iff_fractional modelCardinal modelCardinal _ _
    accept_menos_uno_coma_dos_seis

/-- C7 counterexample: the final transducer does not accept the spec's
English-glossed input `minus one comma two six` — its literal words are
`menos`/`coma`/`punto` and Spanish digit words, and no accepted input lacks
both separator words and a trailing scale word. -/
theorem C7_counterexample :
    ¬ final_graph modelCardinal modelCardinal (toL "minus one comma two six")
      (toL "negative: \"true\" integer_part: \"1\" morphosyntactic_features: \",\" fractional_part: \"26\"") := by
  intro h
  rcases final_input_shape h with hin | hin | ⟨w, hw, hsuf⟩
  · exact absurd hin (by decide)
  · exact absurd hin (by decide)
  · exact (by decide : ∀ w ∈ suffixWords ++ ["thousand"],
      ¬ toL w <:+ toL "minus one comma two six") w hw hsuf

/-- C7 (amended): the source-literal input `menos uno coma dos seis`
(negation word, integer digit word, comma-synonym separator word, two
fractional digit words) is accepted and yields exactly
`negative: "true" integer_part: "1" morphosyntactic_features: ","
fractional_part: "26"`, the rendering of the record with those four fields in
that fixed order. -/
theorem C7_scenario_negative_decimal :
    final_graph modelCardinal modelCardinal (toL "menos uno coma dos seis")
      (toL "negative: \"true\" integer_part: \"1\" morphosyntactic_features: \",\" fractional_part: \"26\"") ∧
    toL "negative: \"true\" integer_part: \"1\" morphosyntactic_features: \",\" fractional_part: \"26\"" =
      render ⟨true, some (toL "1"), some [','], some (toL "26"), none⟩ :=
  ⟨accept_menos_uno_coma_dos_seis, by decide⟩

/-- C8 counterexample: the final transducer does not accept the spec's
English-glossed input `two millions` — the cardinal words and scale words of
the grammar are Spanish. -/
theorem C8_counterexample :
    ¬ final_graph modelCardinal modelCardinal (toL "two millions")
      (toL "integer_part: \"2\" quantity: \"millions\"") := by
  intro h
  rcases final_input_shape h with hin | hin | ⟨w, hw, hsuf⟩
  · exact absurd hin (by decide)
  · exact absurd hin (by decide)
  · exact (by decide : ∀ w ∈ suffixWords ++ ["thousand"],
      ¬ toL w <:+ toL "two millions") w hw hsuf

/-- C8 (amended): the source-literal input `dos millones` (bare cardinal word
plus plural scale word) is accepted via the bare-cardinal quantity path and by
the full transducer, yielding exactly `integer_part: "2" quantity: "millones"`
— the rendering of the record with only those two fields, so with no negative,
feature or fractional field. -/
theorem C8_scenario_bare_cardinal_quantity :
    quantityPathA modelCardinal (toL "dos millones")
      (toL "integer_part: \"2\" quantity: \"millones\"") ∧
    final_graph modelCardinal modelCardinal (toL "dos millones")
      (toL "integer_part: \"2\" quantity: \"millones\"") ∧
    toL "integer_part: \"2\" quantity: \"millones\"" =
      render ⟨false, some (toL "2"), none, none, some (toL "millones")⟩ := by
  refine ⟨accept_dos_millones_pathA, ?_, by decide⟩
  exact u_r (cat_mk [] (toL "dos millones")
    [] (toL "integer_part: \"2\" quantity: \"millones\"") (Or.inl ⟨rfl, rfl⟩)
    (u_l accept_dos_millones_pathA) (by simp) (by simp))

/-- C9: the decimal quantity path accepts the literal English word `thousand`
after a full decimal expression, emitting `quantity: "thousand"`, while the
Spanish word `mil` in the same position is rejected: no output exists for
`uno coma dos mil` under any instantiation's quantity grammar modelled here. -/
theorem C9_thousand_literal :
    get_quantity (final_graph_wo_sign modelCardinal) modelCardinal
      (toL "uno coma dos thousand")
      (toL "integer_part: \"1\" morphosyntactic_features: \",\" fractional_part: \"2\" quantity: \"thousand\"") ∧
    (∀ o, ¬ get_quantity (final_graph_wo_sign modelCardinal) modelCardinal
      (toL "uno coma dos mil") o) := by
  constructor
  · exact u_r accept_uno_coma_dos_thousand
  · intro o h
    obtain ⟨w, hw, hsuf⟩ := quantity_input_shape h
    exact (by decide : ∀ w ∈ suffixWords ++ ["thousand"],
      ¬ toL w <:+ toL "uno coma dos mil") w hw hsuf

/-- C10: every input accepted by the base (non-quantity) decimal path contains
a separator word, and its output renders a record whose fractional field is
present and non-empty (assuming the external cardinal emits non-empty digit
strings) — so an expression with neither integer part nor fractional part is
never accepted by the base path. -/
theorem C10_base_path_fractional (c : FST) (i o : Str)
    (hc : ∀ i' o', c i' o' → o' ≠ [])
    (h : final_graph_wo_sign c i o) :
    ((toL "coma" <:+: i) ∨ (toL "punto" <:+: i)) ∧
    ∃ ip mv fv, fv ≠ [] ∧ (mv = [','] ∨ mv = ['.']) ∧
      o = render ⟨false, ip, some mv, some fv, none⟩ := by
  obtain ⟨ip, mv, fv, fi, hgd, hmv, rfl, hin⟩ := woSign_shape h
  exact ⟨hin, ip, mv, fv, graph_decimal_ne hc fi fv hgd, hmv, rfl⟩

/-- C10 witness: the base-path parse of `uno coma dos seis`. -/
theorem C10_base_path_fractional_witness :
    ((toL "coma" <:+: toL "uno coma dos seis") ∨
      (toL "punto" <:+: toL "uno coma dos seis")) ∧
    ∃ ip mv fv, fv ≠ [] ∧ (mv = [','] ∨ mv = ['.']) ∧
      toL "integer_part: \"1\" morphosyntactic_features: \",\" fractional_part: \"26\"" =
        render ⟨false, ip, some mv, some fv, none⟩ :=
  C10_base_path_fractional modelCardinal _ _ modelCardinal_ne
    accept_uno_coma_dos_seis

end NemoDecimal
